import Mathlib

/-
Verification of the cbconvert comic-book converter: a shallow embedding of
the cover-selection heuristic, the file classifiers, the in-place ZIP
archive mutator, the scheduler's output naming, the directory walk of
`Files`, the bounded-concurrency cap and the image resize fast path,
together with proofs of the specified properties.

Go strings are modelled as lists of characters (`GoStr`); the embedding
follows the Linux build of the program (`os.PathSeparator` is `/`).
-/

set_option maxRecDepth 4000

/-- Go strings modelled as lists of runes. -/
abbrev GoStr := List Char

/-- Conversion from Lean string literals to the Go string model. -/
def gs (s : String) : GoStr := s.data

/-- ASCII lower-casing of one character (the fragment of `strings.ToLower`
relevant to file names). -/
def lowerChar (c : Char) : Char :=
  if 'A' ≤ c ∧ c ≤ 'Z' then Char.ofNat (c.toNat + 32) else c

/-- Embedding of `strings.ToLower` on the ASCII fragment. -/
def goToLower (s : GoStr) : GoStr := s.map lowerChar

/-- Embedding of `strings.HasPrefix s p`. -/
def startsWithStr : GoStr → GoStr → Bool
  | _, [] => true
  | [], _ :: _ => false
  | c :: s, p :: ps => c = p && startsWithStr s ps

/-- Embedding of `strings.HasSuffix s suf`. -/
def endsWithStr (s suf : GoStr) : Bool := startsWithStr s.reverse suf.reverse

/-- `os.PathSeparator` on the Linux build. -/
def pathSeparator : Char := '/'

/-- Embedding of `filepath.ToSlash`: replace every path separator by `/`. -/
def toSlash (s : GoStr) : GoStr := s.map (fun c => if c = pathSeparator then '/' else c)

/-- Helper for `goExt`: scan the reversed path, collecting characters until
the final dot of the final element; a separator means no extension. -/
def extRev : GoStr → GoStr → GoStr
  | [], _ => []
  | c :: rest, acc =>
    if c = pathSeparator then []
    else if c = '.' then c :: acc
    else extRev rest (c :: acc)

/-- Embedding of `filepath.Ext`: the suffix beginning at the final dot in the
final element of the path, empty if there is none. -/
def goExt (p : GoStr) : GoStr := extRev p.reverse []

/-- Embedding of `filepath.Base`: strip trailing separators, then take what
follows the last separator. -/
def goBase (p : GoStr) : GoStr :=
  if p = [] then ['.']
  else
    let q := (p.reverse.dropWhile (fun c => c = pathSeparator)).reverse
    if q = [] then [pathSeparator]
    else (q.reverse.takeWhile (fun c => ¬ (c = pathSeparator))).reverse

/-- Embedding of `strings.TrimSuffix`. -/
def trimSuffixStr (s suf : GoStr) : GoStr :=
  if endsWithStr s suf then s.take (s.length - suf.length) else s

/-- Embedding of `baseNoExt` (cbconvert_func.go): base name of the path
without its extension. -/
def baseNoExt (filename : GoStr) : GoStr := trimSuffixStr (goBase filename) (goExt filename)

/-- Image extensions recognised by `isImage` (cbconvert_func.go). -/
def imageTypes : List GoStr :=
  [gs ".jpg", gs ".jpeg", gs ".png", gs ".gif", gs ".bmp", gs ".tiff", gs ".tif",
    gs ".webp", gs ".avif", gs ".jxl"]

/-- Embedding of `isImage` (cbconvert_func.go). -/
def isImageName (f : GoStr) : Bool := imageTypes.any (fun t => goToLower (goExt f) = t)

/-- Archive extensions recognised by `Convertor.isArchive` (cbconvert.go). -/
def archiveTypes : List GoStr :=
  [gs ".rar", gs ".zip", gs ".7z", gs ".tar", gs ".cbr", gs ".cbz", gs ".cb7", gs ".cbt"]

/-- Embedding of `Convertor.isArchive` (cbconvert.go). -/
def isArchiveName (f : GoStr) : Bool := archiveTypes.any (fun t => goToLower (goExt f) = t)

/-- Document extensions recognised by `Convertor.isDocument` (cbconvert.go,
version used by the `Files` walk). -/
def documentTypes : List GoStr := [gs ".pdf", gs ".epub", gs ".mobi"]

/-- Embedding of `Convertor.isDocument` (cbconvert.go). -/
def isDocumentName (f : GoStr) : Bool := documentTypes.any (fun t => goToLower (goExt f) = t)

/-- Embedding of `Convertor.isSize` (cbconvert.go): with a positive
threshold (in MB), only sizes of at least `threshold * 1024 * 1024` pass. -/
def isSizeOk (thresholdMB : Nat) (size : Nat) : Bool :=
  if 0 < thresholdMB then decide (thresholdMB * (1024 * 1024) ≤ size) else true

/-- Decimal-digit test of `sortorder.isdigit`. -/
def isDigitCh (c : Char) : Bool := '0' ≤ c && c ≤ '9'

/-- Bytewise lexicographic comparison of Go strings (`nr1 < nr2` on the
digit runs compared inside `sortorder.NaturalLess`). -/
def lexLt : GoStr → GoStr → Bool
  | [], [] => false
  | [], _ :: _ => true
  | _ :: _, [] => false
  | c :: s, d :: t => if c = d then lexLt s t else decide (c < d)

/-- Fuel-indexed main loop of `sortorder.NaturalLess` (the natural-order
comparison used by `coverName` through `sort.Sort(sortorder.Natural(...))`).
Each iteration consumes at least one character of the first string, so
`s1.length + 1` fuel always suffices. -/
def naturalLessFuel : Nat → GoStr → GoStr → Bool
  | 0, s1, s2 => decide (s1.length < s2.length)
  | fuel + 1, s1, s2 =>
    match s1, s2 with
    | c1 :: t1, c2 :: t2 =>
      if isDigitCh c1 ≠ isDigitCh c2 then isDigitCh c1
      else if ¬ (isDigitCh c1 = true) then
        if c1 ≠ c2 then decide (c1 < c2) else naturalLessFuel fuel t1 t2
      else
        let z1 := (c1 :: t1).takeWhile (fun c => c = '0')
        let s1z := (c1 :: t1).dropWhile (fun c => c = '0')
        let d1 := s1z.takeWhile isDigitCh
        let r1 := s1z.dropWhile isDigitCh
        let z2 := (c2 :: t2).takeWhile (fun c => c = '0')
        let s2z := (c2 :: t2).dropWhile (fun c => c = '0')
        let d2 := s2z.takeWhile isDigitCh
        let r2 := s2z.dropWhile isDigitCh
        if d1.length ≠ d2.length then decide (d1.length < d2.length)
        else if d1 ≠ d2 then lexLt d1 d2
        else if z1.length ≠ z2.length then decide (z1.length < z2.length)
        else naturalLessFuel fuel r1 r2
    | _, _ => decide (s1.length < s2.length)

/-- Embedding of `sortorder.NaturalLess`. -/
def naturalLess (s1 s2 : GoStr) : Bool := naturalLessFuel (s1.length + 1) s1 s2

/-- First minimal element of a list under `naturalLess`.  This models
`sort.Sort(sortorder.Natural(lower))` followed by reading element 0: the
sort places a minimal element of the strict natural order first. -/
def naturalMin : List GoStr → GoStr
  | [] => []
  | h :: t => t.foldl (fun a b => if naturalLess b a then b else a) h

/-- The prefix/suffix test of the first loop of `Converter.coverName`:
the lower-cased name starts with `cover` or `front`, or its base name
without extension ends with `cover` or `front`. -/
def isCoverFront (l : GoStr) : Bool :=
  startsWithStr l (gs "cover") || startsWithStr l (gs "front") ||
    endsWithStr (baseNoExt l) (gs "cover") || endsWithStr (baseNoExt l) (gs "front")

/-- Embedding of `Converter.coverName`: first an early-exit scan for a
cover/front-named entry, then the natural-sort fallback that re-locates the
original-cased entry whose lower-cased form is the natural minimum. -/
def coverName (images : List GoStr) : GoStr :=
  if images.isEmpty then []
  else
    match images.find? (fun img => isCoverFront (goToLower img)) with
    | some img => toSlash img
    | none =>
      let cover := naturalMin (images.map goToLower)
      match images.find? (fun img => goToLower img == cover) with
      | some img => toSlash img
      | none => []

/-- Embedding of `filepath.getEsc`: decode one (possibly escaped) character
of a character-class range; `none` codes `ErrBadPattern`. -/
def getEsc : GoStr → Option (Char × GoStr)
  | [] => none
  | c :: rest =>
    if c = '-' ∨ c = ']' then none
    else if c = '\\' then
      match rest with
      | [] => none
      | c2 :: rest2 => if rest2 = [] then none else some (c2, rest2)
    else if rest = [] then none else some (c, rest)

/-- The range-parsing loop of the `[` case of `filepath.matchChunk`:
returns the accumulated match flag and the rest of the chunk, or `none` on a
malformed pattern.  Fuel `chunk.length + 1` always suffices because every
iteration consumes at least one chunk character. -/
def parseRanges : Nat → GoStr → Char → Bool → Nat → Option (Bool × GoStr)
  | 0, _, _, _, _ => none
  | fuel + 1, chunk, r, matched, nrange =>
    if chunk ≠ [] ∧ chunk.headI = ']' ∧ 0 < nrange then some (matched, chunk.tail)
    else
      match getEsc chunk with
      | none => none
      | some (lo, chunk1) =>
        match chunk1 with
        | '-' :: chunk1' =>
          match getEsc chunk1' with
          | none => none
          | some (hi, chunk2) =>
            parseRanges fuel chunk2 r (matched || (decide (lo ≤ r) && decide (r ≤ hi)))
              (nrange + 1)
        | _ =>
          parseRanges fuel chunk1 r (matched || (decide (lo ≤ r) && decide (r ≤ lo)))
            (nrange + 1)

/-- Embedding of `filepath.matchChunk`: `none` codes `ErrBadPattern`,
`some none` a failed match, `some (some t)` success leaving rest `t`.  The
`failed` flag reproduces Go's continue-scanning-for-errors behaviour: once
set, the chunk is still consumed but the subject string no longer advances. -/
def matchChunk : Nat → GoStr → GoStr → Bool → Option (Option GoStr)
  | 0, _, _, _ => none
  | fuel + 1, chunk, s, failed =>
    match chunk with
    | [] => if failed then some none else some (some s)
    | c :: rest =>
      let failed1 := failed || s.isEmpty
      if c = '[' then
        let r := if failed1 then '\x00' else s.headI
        let s1 := if failed1 then s else s.tail
        let negated := decide (rest.headI = '^' ∧ rest ≠ [])
        let chunk1 := if negated then rest.tail else rest
        match parseRanges (chunk1.length + 1) chunk1 r false 0 with
        | none => none
        | some (m, chunk2) => matchChunk fuel chunk2 s1 (failed1 || (m == negated))
      else if c = '?' then
        let failed2 := failed1 || (!failed1 && decide (s.headI = pathSeparator))
        let s1 := if failed1 then s else s.tail
        matchChunk fuel rest s1 failed2
      else if c = '\\' then
        match rest with
        | [] => none
        | c2 :: rest2 =>
          let failed2 := failed1 || (!failed1 && decide (c2 ≠ s.headI))
          let s1 := if failed1 then s else s.tail
          matchChunk fuel rest2 s1 failed2
      else
        let failed2 := failed1 || (!failed1 && decide (c ≠ s.headI))
        let s1 := if failed1 then s else s.tail
        matchChunk fuel rest s1 failed2

/-- Helper of `scanChunk`: scan the pattern until an unbracketed `*`,
keeping escapes and bracket state as `filepath.scanChunk` does. -/
def scanBody : GoStr → Bool → GoStr × GoStr
  | [], _ => ([], [])
  | c :: rest, inrange =>
    if c = '\\' then
      match rest with
      | [] => (['\\'], [])
      | c2 :: rest2 =>
        let p := scanBody rest2 inrange
        ('\\' :: c2 :: p.1, p.2)
    else if c = '[' then
      let p := scanBody rest true
      ('[' :: p.1, p.2)
    else if c = ']' then
      let p := scanBody rest false
      (']' :: p.1, p.2)
    else if c = '*' then
      if inrange then
        let p := scanBody rest inrange
        ('*' :: p.1, p.2)
      else ([], '*' :: rest)
    else
      let p := scanBody rest inrange
      (c :: p.1, p.2)

/-- Embedding of `filepath.scanChunk`: strip leading stars, then split off
one chunk of single-character operators. -/
def scanChunk (pattern : GoStr) : Bool × GoStr × GoStr :=
  let p := pattern.dropWhile (fun c => c = '*')
  let star := decide (p.length ≠ pattern.length)
  let body := scanBody p false
  (star, body.1, body.2)

mutual

/-- Fuel-indexed main loop of `filepath.Match` together with its inner
star-skip loop `starLoop`.  Every recursive call shortens the pattern or the
name, so `pattern.length + name.length + 2` fuel always suffices. -/
def goMatchFuel : Nat → GoStr → GoStr → Option Bool
  | 0, _, _ => none
  | fuel + 1, pattern, name =>
    if pattern = [] then some (decide (name = []))
    else
      let sc := scanChunk pattern
      if sc.1 = true ∧ sc.2.1 = [] then some (!name.contains pathSeparator)
      else
        match matchChunk (sc.2.1.length + 1) sc.2.1 name false with
        | none => none
        | some (some t) =>
          if t = [] ∨ sc.2.2 ≠ [] then goMatchFuel fuel sc.2.2 t
          else if sc.1 then starLoop fuel sc.2.1 sc.2.2 name else some false
        | some none =>
          if sc.1 then starLoop fuel sc.2.1 sc.2.2 name else some false

/-- The inner star-skip loop of `filepath.Match`: try the chunk at every
position of the name that does not cross a separator. -/
def starLoop : Nat → GoStr → GoStr → GoStr → Option Bool
  | 0, _, _, _ => none
  | fuel + 1, chunk, rest, m =>
    match m with
    | [] => some false
    | c :: mrest =>
      if c = pathSeparator then some false
      else
        match matchChunk (chunk.length + 1) chunk mrest false with
        | none => none
        | some (some t) =>
          if rest = [] ∧ t ≠ [] then starLoop fuel chunk rest mrest
          else goMatchFuel fuel rest t
        | some none => starLoop fuel chunk rest mrest

end

/-- Embedding of `filepath.Match` (Linux separator): `none` codes
`ErrBadPattern`. -/
def pathMatch (pattern name : GoStr) : Option Bool :=
  goMatchFuel (pattern.length + name.length + 2) pattern name

/-- One ZIP member: its header name, compression method, the remaining
header fields (opaque), and its raw still-compressed byte stream. -/
structure ZipMember where
  name : GoStr
  method : Nat
  hdrRest : Nat
  raw : List Nat
  deriving DecidableEq, Repr

/-- A ZIP archive: ordered member list plus end-of-central-directory comment. -/
structure Zip where
  members : List ZipMember
  comment : GoStr
  deriving DecidableEq, Repr

/-- The `zip.Deflate` method id. -/
def deflateMethod : Nat := 8

/-- The error site of a failed archive-mutation step. -/
inductive MutErr where
  | openReader | createTemp | commentTooLong | openRaw | createRaw | copyRaw
  | closeWriter | closeFile | readTemp | writeOrig | badPattern
  | statNew | readNew | createHeader | createNewMember | writeNewMember
  deriving DecidableEq, Repr

/-- Success/failure oracle for the I/O steps of one archive mutation, in the
source order of the Go functions; `memberOk i k` governs sub-step `k`
(OpenRaw / CreateRaw / io.Copy) of the copy of member `i`. -/
structure IoOracle where
  openReaderOk : Bool
  createTempOk : Bool
  memberOk : Nat → Nat → Bool
  statOk : Bool
  readNewOk : Bool
  createHeaderOk : Bool
  createNewOk : Bool
  writeNewOk : Bool
  closeWriterOk : Bool
  closeFileOk : Bool
  readTempOk : Bool
  writeOrigOk : Bool

/-- The raw-copy loop of `archiveSetComment`: per member, `OpenRaw`,
`CreateRaw` and `io.Copy` may fail; otherwise the member is copied with its
header and raw stream unchanged. -/
def copyLoop (ok : Nat → Nat → Bool) : Nat → List ZipMember → Except MutErr (List ZipMember)
  | _, [] => Except.ok []
  | i, m :: rest =>
    if ok i 0 = false then Except.error MutErr.openRaw
    else if ok i 1 = false then Except.error MutErr.createRaw
    else if ok i 2 = false then Except.error MutErr.copyRaw
    else
      match copyLoop ok (i + 1) rest with
      | Except.error e => Except.error e
      | Except.ok tail => Except.ok (m :: tail)

/-- The copy loop of `archiveFileAdd`: members whose name equals the added
file name are skipped, the rest are copied raw. -/
def addLoop (ok : Nat → Nat → Bool) (newFileName : GoStr) :
    Nat → List ZipMember → Except MutErr (List ZipMember)
  | _, [] => Except.ok []
  | i, m :: rest =>
    if m.name = newFileName then addLoop ok newFileName (i + 1) rest
    else if ok i 0 = false then Except.error MutErr.openRaw
    else if ok i 1 = false then Except.error MutErr.createRaw
    else if ok i 2 = false then Except.error MutErr.copyRaw
    else
      match addLoop ok newFileName (i + 1) rest with
      | Except.error e => Except.error e
      | Except.ok tail => Except.ok (m :: tail)

/-- The copy loop of `archiveFileRemove`: `filepath.Match` errors abort,
matching members are skipped, non-matching ones are copied raw. -/
def removeLoop (ok : Nat → Nat → Bool) (pattern : GoStr) :
    Nat → List ZipMember → Except MutErr (List ZipMember)
  | _, [] => Except.ok []
  | i, m :: rest =>
    match pathMatch pattern m.name with
    | none => Except.error MutErr.badPattern
    | some true => removeLoop ok pattern (i + 1) rest
    | some false =>
      if ok i 0 = false then Except.error MutErr.openRaw
      else if ok i 1 = false then Except.error MutErr.createRaw
      else if ok i 2 = false then Except.error MutErr.copyRaw
      else
        match removeLoop ok pattern (i + 1) rest with
        | Except.error e => Except.error e
        | Except.ok tail => Except.ok (m :: tail)

/-- Sequencing of a copy-loop outcome into the rest of a mutation: a loop
error aborts with the original content, success continues. -/
def stepCont (r : Except MutErr (List ZipMember)) (z : Zip)
    (f : List ZipMember → Zip × Option MutErr) : Zip × Option MutErr :=
  match r with
  | Except.error e => (z, some e)
  | Except.ok l => f l

/-- The first failing step of a list of (success flag, error site) pairs,
written in the source order of the Go `if err != nil` checks. -/
def firstFail : List (Bool × MutErr) → Option MutErr
  | [] => none
  | (ok, e) :: rest => if ok = false then some e else firstFail rest

/-- Sequencing of a block of plain fallible steps into the rest of a
mutation: the first failing step aborts with the original content. -/
def failCont (r : Option MutErr) (z : Zip) (f : Unit → Zip × Option MutErr) :
    Zip × Option MutErr :=
  match r with
  | some e => (z, some e)
  | none => f ()

/-- The final `os.WriteFile` on the original path: the only step that
changes the original archive content, fallible like the rest. -/
def writeStep (okFlag : Bool) (final : Zip) : Zip × Option MutErr :=
  if okFlag = false then (final, some MutErr.writeOrig) else (final, none)

/-- Embedding of `Converter.archiveSetComment` as a transformer of the
original archive file's content.  Each fallible Go step appears in source
order: `zip.OpenReader`, `os.CreateTemp`, `zw.SetComment` — which fails
exactly when the comment exceeds 65535 bytes — the raw-copy loop,
`zw.Close`, `zf.Close`, `os.ReadFile` of the temp file, and finally
`os.WriteFile` on the original path. -/
def archiveSetCommentRun (o : IoOracle) (z : Zip) (commentBody : GoStr) :
    Zip × Option MutErr :=
  failCont (firstFail [(o.openReaderOk, MutErr.openReader),
      (o.createTempOk, MutErr.createTemp),
      (decide (commentBody.length ≤ 65535), MutErr.commentTooLong)]) z (fun _ =>
    stepCont (copyLoop o.memberOk 0 z.members) z (fun copied =>
      failCont (firstFail [(o.closeWriterOk, MutErr.closeWriter),
          (o.closeFileOk, MutErr.closeFile),
          (o.readTempOk, MutErr.readTemp)]) z (fun _ =>
        writeStep o.writeOrigOk ⟨copied, commentBody⟩)))

/-- Embedding of `Converter.archiveFileAdd`: copy every member whose name
differs from the argument path, then append a fresh Deflate member whose
header comes from `zip.FileInfoHeader(os.Stat(newFileName))` — hence named
by the base name of the path — and whose data is the deflated file content.
The fresh `zip.NewWriter` never receives a comment, so the rewritten
archive's comment is empty. -/
def archiveFileAddRun (o : IoOracle) (z : Zip) (newFileName : GoStr)
    (newMeta : Nat) (newData : List Nat) (deflate : List Nat → List Nat) :
    Zip × Option MutErr :=
  failCont (firstFail [(o.openReaderOk, MutErr.openReader),
      (o.createTempOk, MutErr.createTemp)]) z (fun _ =>
    stepCont (addLoop o.memberOk newFileName 0 z.members) z (fun copied =>
      failCont (firstFail [(o.statOk, MutErr.statNew), (o.readNewOk, MutErr.readNew),
          (o.createHeaderOk, MutErr.createHeader),
          (o.createNewOk, MutErr.createNewMember),
          (o.writeNewOk, MutErr.writeNewMember),
          (o.closeWriterOk, MutErr.closeWriter), (o.closeFileOk, MutErr.closeFile),
          (o.readTempOk, MutErr.readTemp)]) z (fun _ =>
        writeStep o.writeOrigOk
          ⟨copied ++ [⟨goBase newFileName, deflateMethod, newMeta, deflate newData⟩],
            []⟩)))

/-- Embedding of `Converter.archiveFileRemove`: copy every member whose name
does not match the glob pattern; a malformed pattern aborts.  As with the
add operation, the comment of the rewritten archive is empty. -/
def archiveFileRemoveRun (o : IoOracle) (z : Zip) (pattern : GoStr) :
    Zip × Option MutErr :=
  failCont (firstFail [(o.openReaderOk, MutErr.openReader),
      (o.createTempOk, MutErr.createTemp)]) z (fun _ =>
    stepCont (removeLoop o.memberOk pattern 0 z.members) z (fun kept =>
      failCont (firstFail [(o.closeWriterOk, MutErr.closeWriter),
          (o.closeFileOk, MutErr.closeFile),
          (o.readTempOk, MutErr.readTemp)]) z (fun _ =>
        writeStep o.writeOrigOk ⟨kept, []⟩)))

/-- Concrete two-member archive used by witnesses. -/
def zdemo : Zip := ⟨[⟨gs "a.xml", 8, 1, [5]⟩, ⟨gs "b.jpg", 8, 2, [6, 7]⟩], gs "old"⟩

/-- Oracle where every I/O step succeeds. -/
def allOkOracle : IoOracle :=
  ⟨true, true, fun _ _ => true, true, true, true, true, true, true, true, true, true⟩

/-- Oracle where the very first step (`zip.OpenReader`) fails. -/
def openFailOracle : IoOracle :=
  ⟨false, true, fun _ _ => true, true, true, true, true, true, true, true, true, true⟩

/-- Target extension selection of `imageConvert` (cbconvert_convert.go):
`jpeg` is written as `jpg`, any other format name is used as is. -/
def outExt (format : GoStr) : GoStr := if format = gs "jpeg" then gs "jpg" else format

/-- The character of one decimal digit. -/
def digitChar (d : Nat) : Char := Char.ofNat (48 + d)

/-- Little-endian decimal digits with explicit fuel (`n` itself always
suffices, since the digit count of a positive `n` is at most `n`). -/
def decAux : Nat → Nat → List Nat
  | 0, _ => []
  | fuel + 1, n => if n = 0 then [] else n % 10 :: decAux fuel (n / 10)

/-- Big-endian decimal digits of a natural number (empty for 0; the zero
padding below supplies the digits of `fmt.Sprintf("%03d", 0)`). -/
def decDigits (n : Nat) : List Nat := (decAux n n).reverse

/-- Decimal string of a natural number. -/
def decStr (n : Nat) : GoStr := (decDigits n).map digitChar

/-- Embedding of `fmt.Sprintf("%03d", n)`: the decimal form zero-padded to
width 3. -/
def pad3 (n : Nat) : GoStr := List.replicate (3 - (decStr n).length) '0' ++ decStr n

/-- Output file naming of `imageConvert` (cbconvert_convert.go): an entry
carrying a source name is written as `<base-without-extension>.<ext>`, an
unnamed one (a document page) as the zero-padded 3-digit index plus
extension. -/
def outputFileName (format : GoStr) (index : Nat) (pathName : GoStr) : GoStr :=
  if pathName ≠ [] then baseNoExt pathName ++ '.' :: outExt format
  else pad3 index ++ '.' :: outExt format

/-- Numeric value read back from a digit character string. -/
def chVal (s : GoStr) : Nat := s.foldl (fun a c => 10 * a + (c.toNat - 48)) 0

/-- One immediate child of a directory as reported by `os.ReadDir`. -/
structure DirChild where
  name : GoStr
  dirFlag : Bool
  deriving DecidableEq, Repr

/-- A directory visited by the walk, with its `os.ReadDir` listing. -/
structure DirListing where
  name : GoStr
  entries : List DirChild
  deriving DecidableEq, Repr

/-- One visit of `filepath.Walk`: a regular file with its size, or a
directory together with its immediate-children listing. -/
inductive WalkItem where
  | file (name : GoStr) (size : Nat) : WalkItem
  | dir (listing : DirListing) : WalkItem
  deriving DecidableEq, Repr

/-- The `walkFiles` callback of `Convertor.Files`: directories are skipped;
archive/document files passing the size filter are collected. -/
def walkFilesStep (thresholdMB : Nat) : WalkItem → List GoStr
  | WalkItem.file name size =>
    if (isArchiveName name || isDocumentName name) && isSizeOk thresholdMB size then [name]
    else []
  | WalkItem.dir _ => []

/-- The `count` of `walkDirs`: how many immediate children are not
directories (any file kind counts). -/
def nonDirCount (l : DirListing) : Nat :=
  (l.entries.filter (fun e => !e.dirFlag)).length

/-- The `walkDirs` callback of `Convertor.Files`: a visited directory is
collected when more than one of its immediate children is a non-directory. -/
def walkDirsStep : WalkItem → List GoStr
  | WalkItem.file _ _ => []
  | WalkItem.dir l => if 1 < nonDirCount l then [l.name] else []

/-- The `filepath.Walk(path, walkFiles)` pass over the visit sequence. -/
def walkFilesRun (thresholdMB : Nat) (items : List WalkItem) : List GoStr :=
  (items.map (walkFilesStep thresholdMB)).flatten

/-- The `filepath.Walk(path, walkDirs)` pass over the visit sequence. -/
def walkDirsRun (items : List WalkItem) : List GoStr :=
  (items.map walkDirsStep).flatten

/-- The recursive directory branch of `Convertor.Files` for one directory
argument: collect individually matched archive/document files; only if none
were found, fall back to the plain-image-directory walk. -/
def filesDirArg (thresholdMB : Nat) (items : List WalkItem) : List GoStr :=
  let matched := walkFilesRun thresholdMB items
  if matched.isEmpty then walkDirsRun items else matched

/-- Image files among the immediate children of a directory — the count the
specification text describes. -/
def imageChildCount (l : DirListing) : Nat :=
  (l.entries.filter (fun e => !e.dirFlag && isImageName e.name)).length

/-- A directory holding two text files and no image. -/
def twoTextDir : DirListing :=
  ⟨gs "d", [⟨gs "a.txt", false⟩, ⟨gs "b.txt", false⟩]⟩

/-- State of one conversion's worker pool: the number of entry tasks
currently running inside the `errgroup`, and how many have been dispatched. -/
structure SchedState where
  running : Nat
  dispatched : Nat
  deriving DecidableEq, Repr

/-- The `errgroup` transition relation under `eg.SetLimit limit`: `eg.Go`
blocks until fewer than `limit` tasks are active, so a dispatch requires
`running < limit`; a running task may finish at any time. -/
inductive SchedStep (limit : Nat) : SchedState → SchedState → Prop where
  | dispatch (s : SchedState) (h : s.running < limit) :
      SchedStep limit s ⟨s.running + 1, s.dispatched + 1⟩
  | finish (s : SchedState) (h : 0 < s.running) :
      SchedStep limit s ⟨s.running - 1, s.dispatched⟩

/-- Worker-pool states reachable from the idle pool. -/
inductive SchedReach (limit : Nat) : SchedState → Prop where
  | init : SchedReach limit ⟨0, 0⟩
  | step (s t : SchedState) (hs : SchedReach limit s) (h : SchedStep limit s t) :
      SchedReach limit t

/-- The limit installed by `convertArchive` and `convertDocument`:
`eg.SetLimit(runtime.NumCPU() + 1)`. -/
def convertWorkerLimit (numCPU : Nat) : Nat := numCPU + 1

/-- The five levels parameters of `Options` (cbconvert.go); the Go float64
values are modelled as exact rationals — the identity defaults 0, 255, 1.0
are exactly representable in float64, so the comparisons agree. -/
structure LevelsOptions where
  levelsInMin : Rat
  levelsInMax : Rat
  levelsGamma : Rat
  levelsOutMin : Rat
  levelsOutMax : Rat
  deriving DecidableEq, Repr

/-- The guard before the levels step in `Convertor.imageConvert` and
`Convertor.Preview` (cbconvert.go). -/
def levelsGate (o : LevelsOptions) : Bool :=
  decide (o.levelsInMin ≠ 0) || decide (o.levelsInMax ≠ 255) ||
    decide (o.levelsGamma ≠ 1) || decide (o.levelsOutMin ≠ 0) ||
    decide (o.levelsOutMax ≠ 255)

/-- The identity defaults of the five levels parameters. -/
def levelsDefaults : LevelsOptions := ⟨0, 255, 1, 0, 255⟩

/-- The transform-then-maybe-levels stage of `Convertor.imageConvert`: after
the transform stage, the levels operation (the external ImageMagick call,
which may fail) runs only when the gate is open. -/
def imageConvertStage {α : Type} (o : LevelsOptions) (transform : α → α)
    (level : α → Except Unit α) (img : α) : Except Unit α :=
  let i := transform img
  if levelsGate o then level i else Except.ok i

/-- An in-memory image: bounds and pixel content (`At` colours). -/
structure GoImage where
  width : Nat
  height : Nat
  pix : Nat → Nat → Nat

/-- Embedding of `imageToRGBA` (cbconvert_image.go): an RGBA copy with the
same bounds and the same pixel content (`draw.Draw` with `draw.Src` copies
source pixels; an RGBA source is returned as is). -/
def imageToRGBA (img : GoImage) : GoImage := ⟨img.width, img.height, img.pix⟩

/-- The derived dimension of `resize` when one target dimension is 0:
`int(math.Max(1.0, math.Floor(a*b/c + 0.5)))`, the float64 arithmetic
modelled exactly over the rationals. -/
def derivedDim (a b c : Nat) : Nat :=
  max 1 (Int.toNat ⌊(a * b : Rat) / c + 1 / 2⌋)

/-- The target width computed by `resize` (cbconvert_image.go). -/
def resizeDstW (img : GoImage) (width height : Nat) : Nat :=
  if width = 0 then derivedDim height img.width img.height else width

/-- The target height computed by `resize`; when `height` is 0 it is derived
from the possibly-derived target width. -/
def resizeDstH (img : GoImage) (width height : Nat) : Nat :=
  if height = 0 then derivedDim (resizeDstW img width height) img.height img.width
  else height

/-- Embedding of `resize` (cbconvert_image.go), parameterised by the
external `transform.Resize` resampling collaborator (one per filter). -/
def resizeImage (resample : GoImage → Nat → Nat → GoImage) (img : GoImage)
    (width height : Nat) : GoImage :=
  if img.width = resizeDstW img width height ∧ img.height = resizeDstH img width height
  then imageToRGBA img
  else resample img (resizeDstW img width height) (resizeDstH img width height)

/-- Concrete 4-by-3 test image. -/
def imgDemo : GoImage := ⟨4, 3, fun x y => x + y⟩

-- Sanity checks of the embedding on concrete values.
example : goExt (gs "a/b/page01.JPG") = gs ".JPG" := by decide

example : goExt (gs "noext") = [] := by decide

example : goBase (gs "a/b/c.png") = gs "c.png" := by decide

example : baseNoExt (gs "a/b/c.png") = gs "c" := by decide

example : isImageName (gs "x/y.WebP") = true := by decide

example : isImageName (gs "x/y.txt") = false := by decide

example : naturalLess (gs "page2") (gs "page10") = true := by decide

example : naturalLess (gs "page10") (gs "page2") = false := by decide

example : naturalMin [gs "page10.jpg", gs "page2.jpg", gs "page1.jpg"] = gs "page1.jpg" := by
  decide

example : coverName [gs "b.jpg", gs "a/Cover.jpg"] = gs "a/Cover.jpg" := by decide

/-- On the Linux build `toSlash` is the identity. -/
theorem toSlash_eq_self (s : GoStr) : toSlash s = s := by
  induction s with
  | nil => rfl
  | cons c t ih =>
    simp only [toSlash, List.map_cons] at *
    by_cases h : c = pathSeparator
    · subst h; simpa [pathSeparator] using ih
    · simpa [h] using ih

/-- The fold computing `naturalMin` stays inside the list. -/
theorem foldl_naturalMin_mem (t : List GoStr) (a : GoStr) :
    t.foldl (fun a b => if naturalLess b a then b else a) a ∈ a :: t := by
  induction t generalizing a with
  | nil => simp
  | cons b t' ih =>
    simp only [List.foldl_cons]
    have h := ih (if naturalLess b a then b else a)
    have hsub : (if naturalLess b a then b else a) :: t' ⊆ a :: b :: t' := by
      intro x hx
      rcases List.mem_cons.mp hx with h1 | h1
      · by_cases hc : naturalLess b a = true
        · rw [if_pos hc] at h1
          exact h1 ▸ List.mem_cons.mpr (Or.inr (List.mem_cons.mpr (Or.inl rfl)))
        · rw [if_neg hc] at h1
          exact h1 ▸ List.mem_cons.mpr (Or.inl rfl)
      · exact List.mem_cons.mpr (Or.inr (List.mem_cons.mpr (Or.inr h1)))
    exact hsub h

/-- For a non-empty list, `naturalMin` is an element of the list. -/
theorem naturalMin_mem (l : List GoStr) (h : l ≠ []) : naturalMin l ∈ l := by
  cases l with
  | nil => exact absurd rfl h
  | cons x t => exact foldl_naturalMin_mem t x

/-- Claim C3: `coverName` returns the first entry whose lower-cased name
starts with `cover`/`front` or whose lower-cased base name without extension
ends with `cover`/`front`; when no entry matches, it returns the first
original-cased entry whose lower-cased form equals the natural-order minimum
of the lower-cased names; on `["page10.jpg","page2.jpg","page1.jpg"]` it
returns `"page1.jpg"`; on the empty list it returns the empty string. -/
theorem coverName_spec :
    (coverName [] = []) ∧
    (∀ images img, images.find? (fun i => isCoverFront (goToLower i)) = some img →
      coverName images = img) ∧
    (∀ images img,
      images.find? (fun i => isCoverFront (goToLower i)) = none →
      images.find? (fun i => goToLower i == naturalMin (images.map goToLower)) = some img →
      coverName images = img) ∧
    (coverName [gs "page10.jpg", gs "page2.jpg", gs "page1.jpg"] = gs "page1.jpg") := by
  refine ⟨rfl, ?_, ?_, by decide⟩
  · intro images img h
    cases images with
    | nil => simp at h
    | cons x t =>
      simp only [coverName, List.isEmpty_cons, Bool.false_eq_true, if_false, h]
      exact toSlash_eq_self img
  · intro images img h1 h2
    cases images with
    | nil => simp at h2
    | cons x t =>
      simp only [coverName, List.isEmpty_cons, Bool.false_eq_true, if_false, h1, h2]
      exact toSlash_eq_self img

/-- Witness for C3: concrete instantiations of the two conditional parts. -/
theorem coverName_spec_witness :
    coverName [gs "b.jpg", gs "a/Cover.jpg"] = gs "a/Cover.jpg" ∧
    coverName [gs "page10.jpg", gs "page2.jpg", gs "page1.jpg"] = gs "page1.jpg" := by
  constructor
  · exact coverName_spec.2.1 [gs "b.jpg", gs "a/Cover.jpg"] (gs "a/Cover.jpg") (by decide)
  · exact coverName_spec.2.2.1 [gs "page10.jpg", gs "page2.jpg", gs "page1.jpg"]
      (gs "page1.jpg") (by decide) (by decide)

/-- Claim C9: for non-empty input `coverName` always returns the
slash-normalized form of an element of the input list; the final
empty-string branch is unreachable. -/
theorem coverName_total (images : List GoStr) (h : images ≠ []) :
    ∃ img, img ∈ images ∧ coverName images = toSlash img := by
  cases hfind : images.find? (fun i => isCoverFront (goToLower i)) with
  | some img =>
    refine ⟨img, List.mem_of_find?_eq_some hfind, ?_⟩
    cases images with
    | nil => exact absurd rfl h
    | cons x t => simp only [coverName, List.isEmpty_cons, Bool.false_eq_true, if_false, hfind]
  | none =>
    have hm : naturalMin (images.map goToLower) ∈ images.map goToLower := by
      apply naturalMin_mem
      cases images with
      | nil => exact absurd rfl h
      | cons x t => simp
    rcases List.mem_map.mp hm with ⟨a, ha, hae⟩
    have hsome : (images.find? (fun i =>
        goToLower i == naturalMin (images.map goToLower))).isSome := by
      rw [List.find?_isSome]
      exact ⟨a, ha, by simp [hae]⟩
    rcases Option.isSome_iff_exists.mp hsome with ⟨img, himg⟩
    refine ⟨img, List.mem_of_find?_eq_some himg, ?_⟩
    cases images with
    | nil => exact absurd rfl h
    | cons x t =>
      simp only [coverName, List.isEmpty_cons, Bool.false_eq_true, if_false, hfind, himg]

/-- Witness for C9 at a concrete entry list. -/
theorem coverName_total_witness :
    ∃ img, img ∈ [gs "page10.jpg", gs "page2.jpg", gs "page1.jpg"] ∧
      coverName [gs "page10.jpg", gs "page2.jpg", gs "page1.jpg"] = toSlash img :=
  coverName_total [gs "page10.jpg", gs "page2.jpg", gs "page1.jpg"] (by decide)

-- Sanity checks of the glob matcher against `filepath.Match` behaviour.
example : pathMatch (gs "*.xml") (gs "meta.xml") = some true := by decide

example : pathMatch (gs "*.xml") (gs "page01.jpg") = some false := by decide

example : pathMatch (gs "*.xml") (gs "dir/meta.xml") = some false := by decide

example : pathMatch (gs "a?c") (gs "abc") = some true := by decide

example : pathMatch (gs "a[0-9]") (gs "a7") = some true := by decide

example : pathMatch (gs "a[^0-9]") (gs "a7") = some false := by decide

example : pathMatch (gs "[") (gs "x") = none := by decide

example : pathMatch (gs "ab[") (gs "ab") = none := by decide

example : pathMatch (gs "*") (gs "abc") = some true := by decide

example : pathMatch (gs "*") (gs "a/c") = some false := by decide

example : pathMatch (gs "a*b") (gs "axxb") = some true := by decide

example : pathMatch (gs "a*b") (gs "ab") = some true := by decide

example : pathMatch (gs "a\\*b") (gs "a*b") = some true := by decide

example : pathMatch (gs "a\\*b") (gs "axb") = some false := by decide

/-- Inversion: a successful `failCont` block means no step failed and the
continuation produced the result. -/
theorem failCont_none (r : Option MutErr) (z : Zip) (f : Unit → Zip × Option MutErr)
    (res : Zip) (h : failCont r z f = (res, none)) : f () = (res, none) := by
  cases r with
  | none => simpa [failCont] using h
  | some e => simp [failCont, Prod.ext_iff] at h

/-- Inversion: a failed `failCont` block either failed in the block, leaving
the original content, or failed in the continuation. -/
theorem failCont_some (r : Option MutErr) (z : Zip) (f : Unit → Zip × Option MutErr)
    (res : Zip) (e : MutErr) (h : failCont r z f = (res, some e)) :
    res = z ∨ f () = (res, some e) := by
  cases r with
  | none => exact Or.inr (by simpa [failCont] using h)
  | some e2 =>
    simp only [failCont, Prod.ext_iff] at h
    exact Or.inl h.1.symm

/-- Inversion: a successful `stepCont` means the copy loop succeeded and the
continuation produced the result. -/
theorem stepCont_none (r : Except MutErr (List ZipMember)) (z : Zip)
    (f : List ZipMember → Zip × Option MutErr) (res : Zip)
    (h : stepCont r z f = (res, none)) :
    ∃ l, r = Except.ok l ∧ f l = (res, none) := by
  cases r with
  | ok l => exact ⟨l, rfl, by simpa [stepCont] using h⟩
  | error e => simp [stepCont, Prod.ext_iff] at h

/-- Inversion: a failed `stepCont` either failed in the loop, leaving the
original content, or failed in the continuation. -/
theorem stepCont_some (r : Except MutErr (List ZipMember)) (z : Zip)
    (f : List ZipMember → Zip × Option MutErr) (res : Zip) (e : MutErr)
    (h : stepCont r z f = (res, some e)) :
    res = z ∨ ∃ l, r = Except.ok l ∧ f l = (res, some e) := by
  cases r with
  | ok l => exact Or.inr ⟨l, rfl, by simpa [stepCont] using h⟩
  | error e2 =>
    simp only [stepCont, Prod.ext_iff] at h
    exact Or.inl h.1.symm

/-- Inversion for the final write: the result content is the new archive and
the only possible error is the write itself. -/
theorem writeStep_inv (okFlag : Bool) (final : Zip) (res : Zip) (p : Option MutErr)
    (h : writeStep okFlag final = (res, p)) :
    res = final ∧ (p = none ∨ p = some MutErr.writeOrig) := by
  cases okFlag with
  | false =>
    simp only [writeStep, if_pos rfl, Prod.ext_iff] at h
    exact ⟨h.1.symm, Or.inr h.2.symm⟩
  | true =>
    simp only [writeStep, Prod.ext_iff] at h
    simp at h
    exact ⟨h.1.symm, Or.inl h.2.symm⟩

/-- A successful `copyLoop` copies the member list unchanged. -/
theorem copyLoop_ok (ok : Nat → Nat → Bool) :
    ∀ (ms : List ZipMember) (i : Nat) (l : List ZipMember),
      copyLoop ok i ms = Except.ok l → l = ms := by
  intro ms
  induction ms with
  | nil => intro i l h; simpa [copyLoop] using h.symm
  | cons m rest ih =>
    intro i l h
    simp only [copyLoop] at h
    split_ifs at h
    cases hrec : copyLoop ok (i + 1) rest with
    | error e => rw [hrec] at h; cases h
    | ok tail =>
      rw [hrec] at h
      cases h
      rw [ih (i + 1) tail hrec]

/-- A successful `addLoop` keeps exactly the members whose name differs from
the added file name, unchanged and in order. -/
theorem addLoop_ok (ok : Nat → Nat → Bool) (newFileName : GoStr) :
    ∀ (ms : List ZipMember) (i : Nat) (l : List ZipMember),
      addLoop ok newFileName i ms = Except.ok l →
      l = ms.filter (fun m => decide (m.name ≠ newFileName)) := by
  intro ms
  induction ms with
  | nil => intro i l h; simpa [addLoop] using h.symm
  | cons m rest ih =>
    intro i l h
    simp only [addLoop] at h
    by_cases hname : m.name = newFileName
    · rw [if_pos hname] at h
      have := ih (i + 1) l h
      simp [List.filter, hname, this]
    · rw [if_neg hname] at h
      split_ifs at h
      cases hrec : addLoop ok newFileName (i + 1) rest with
      | error e => rw [hrec] at h; cases h
      | ok tail =>
        rw [hrec] at h
        cases h
        simp [List.filter, hname, ih (i + 1) tail hrec]

/-- A successful `removeLoop` keeps exactly the members whose name does not
match the pattern, unchanged and in order. -/
theorem removeLoop_ok (ok : Nat → Nat → Bool) (pattern : GoStr) :
    ∀ (ms : List ZipMember) (i : Nat) (l : List ZipMember),
      removeLoop ok pattern i ms = Except.ok l →
      l = ms.filter (fun m => pathMatch pattern m.name == some false) := by
  intro ms
  induction ms with
  | nil => intro i l h; simpa [removeLoop] using h.symm
  | cons m rest ih =>
    intro i l h
    simp only [removeLoop] at h
    cases hm : pathMatch pattern m.name with
    | none => rw [hm] at h; cases h
    | some b =>
      rw [hm] at h
      cases b with
      | true =>
        simp only at h
        have := ih (i + 1) l h
        simp [List.filter, hm, this]
      | false =>
        simp only at h
        split_ifs at h
        cases hrec : removeLoop ok pattern (i + 1) rest with
        | error e => rw [hrec] at h; cases h
        | ok tail =>
          rw [hrec] at h
          cases h
          simp [List.filter, hm, ih (i + 1) tail hrec]

/-- Claim C1: every mutation operation copies each not-excluded source member
with its raw compressed stream and header unchanged — after `archiveSetComment`
the member list is byte-identical, after `archiveFileAdd` every member whose
name differs from the argument survives unchanged, and after
`archiveFileRemove` exactly the non-matching members survive unchanged, with
no remaining member matching the glob pattern. -/
theorem archiveMutatorRawCopy :
    (∀ o z commentBody res,
      archiveSetCommentRun o z commentBody = (res, none) →
      res.members = z.members ∧ res.comment = commentBody) ∧
    (∀ o z newFileName newMeta newData deflate res,
      archiveFileAddRun o z newFileName newMeta newData deflate = (res, none) →
      ∀ m ∈ z.members, m.name ≠ newFileName → m ∈ res.members) ∧
    (∀ o z pattern res,
      archiveFileRemoveRun o z pattern = (res, none) →
      res.members = z.members.filter (fun m => pathMatch pattern m.name == some false) ∧
      ∀ m ∈ res.members, ¬ (pathMatch pattern m.name = some true)) := by
  refine ⟨?_, ?_, ?_⟩
  · intro o z commentBody res h
    have h1 := failCont_none _ _ _ _ h
    rcases stepCont_none _ _ _ _ h1 with ⟨copied, hcopy, h2⟩
    have h3 := failCont_none _ _ _ _ h2
    have h4 := (writeStep_inv _ _ _ _ h3).1
    rw [h4]
    exact ⟨copyLoop_ok o.memberOk z.members 0 copied hcopy, rfl⟩
  · intro o z newFileName newMeta newData deflate res h
    have h1 := failCont_none _ _ _ _ h
    rcases stepCont_none _ _ _ _ h1 with ⟨copied, hcopy, h2⟩
    have h3 := failCont_none _ _ _ _ h2
    have h4 := (writeStep_inv _ _ _ _ h3).1
    rw [h4]
    intro m hm hname
    have hc := addLoop_ok o.memberOk newFileName z.members 0 copied hcopy
    simp only [hc]
    apply List.mem_append_left
    exact List.mem_filter.mpr ⟨hm, by simpa using hname⟩
  · intro o z pattern res h
    have h1 := failCont_none _ _ _ _ h
    rcases stepCont_none _ _ _ _ h1 with ⟨kept, hcopy, h2⟩
    have h3 := failCont_none _ _ _ _ h2
    have h4 := (writeStep_inv _ _ _ _ h3).1
    rw [h4]
    have hk := removeLoop_ok o.memberOk pattern z.members 0 kept hcopy
    refine ⟨hk, ?_⟩
    intro m hm
    rw [hk] at hm
    have hmem := (List.mem_filter.mp hm).2
    intro hcon
    rw [hcon] at hmem
    simp at hmem

/-- Witness for C1: a successful comment edit and a successful glob removal
on a concrete two-member archive. -/
theorem archiveMutatorRawCopy_witness :
    ((archiveSetCommentRun allOkOracle zdemo (gs "hi")).1.members = zdemo.members ∧
      (archiveSetCommentRun allOkOracle zdemo (gs "hi")).1.comment = gs "hi") ∧
    (archiveFileRemoveRun allOkOracle zdemo (gs "*.xml")).1.members =
      zdemo.members.filter (fun m => pathMatch (gs "*.xml") m.name == some false) := by
  constructor
  · exact archiveMutatorRawCopy.1 allOkOracle zdemo (gs "hi")
      (archiveSetCommentRun allOkOracle zdemo (gs "hi")).1 (by decide)
  · exact (archiveMutatorRawCopy.2.2 allOkOracle zdemo (gs "*.xml")
      (archiveFileRemoveRun allOkOracle zdemo (gs "*.xml")).1 (by decide)).1

/-- Claim C2: if any step of a mutation operation fails before the final
overwrite of the original file, the operation reports the error and the
original archive content is unchanged. -/
theorem archiveMutatorAbortKeepsOriginal :
    (∀ o z commentBody res e,
      archiveSetCommentRun o z commentBody = (res, some e) →
      e ≠ MutErr.writeOrig → res = z) ∧
    (∀ o z newFileName newMeta newData deflate res e,
      archiveFileAddRun o z newFileName newMeta newData deflate = (res, some e) →
      e ≠ MutErr.writeOrig → res = z) ∧
    (∀ o z pattern res e,
      archiveFileRemoveRun o z pattern = (res, some e) →
      e ≠ MutErr.writeOrig → res = z) := by
  refine ⟨?_, ?_, ?_⟩
  · intro o z commentBody res e h he
    rcases failCont_some _ _ _ _ _ h with h1 | h1
    · exact h1
    rcases stepCont_some _ _ _ _ _ h1 with h2 | ⟨copied, hcopy, h2⟩
    · exact h2
    rcases failCont_some _ _ _ _ _ h2 with h3 | h3
    · exact h3
    rcases (writeStep_inv _ _ _ _ h3).2 with h4 | h4
    · exact Option.noConfusion h4
    · exact absurd (Option.some.inj h4) he
  · intro o z newFileName newMeta newData deflate res e h he
    rcases failCont_some _ _ _ _ _ h with h1 | h1
    · exact h1
    rcases stepCont_some _ _ _ _ _ h1 with h2 | ⟨copied, hcopy, h2⟩
    · exact h2
    rcases failCont_some _ _ _ _ _ h2 with h3 | h3
    · exact h3
    rcases (writeStep_inv _ _ _ _ h3).2 with h4 | h4
    · exact Option.noConfusion h4
    · exact absurd (Option.some.inj h4) he
  · intro o z pattern res e h he
    rcases failCont_some _ _ _ _ _ h with h1 | h1
    · exact h1
    rcases stepCont_some _ _ _ _ _ h1 with h2 | ⟨kept, hcopy, h2⟩
    · exact h2
    rcases failCont_some _ _ _ _ _ h2 with h3 | h3
    · exact h3
    rcases (writeStep_inv _ _ _ _ h3).2 with h4 | h4
    · exact Option.noConfusion h4
    · exact absurd (Option.some.inj h4) he

/-- Witness for C2: a failing first step leaves the concrete archive
unchanged, for each of the three operations. -/
theorem archiveMutatorAbortKeepsOriginal_witness :
    (archiveSetCommentRun openFailOracle zdemo (gs "x")).1 = zdemo ∧
    (archiveFileAddRun openFailOracle zdemo (gs "c.txt") 0 [9] (fun l => l)).1 = zdemo ∧
    (archiveFileRemoveRun openFailOracle zdemo (gs "*.xml")).1 = zdemo := by
  refine ⟨?_, ?_, ?_⟩
  · exact archiveMutatorAbortKeepsOriginal.1 openFailOracle zdemo (gs "x")
      (archiveSetCommentRun openFailOracle zdemo (gs "x")).1 MutErr.openReader
      (by decide) (by decide)
  · exact archiveMutatorAbortKeepsOriginal.2.1 openFailOracle zdemo (gs "c.txt") 0 [9]
      (fun l => l)
      (archiveFileAddRun openFailOracle zdemo (gs "c.txt") 0 [9] (fun l => l)).1
      MutErr.openReader (by decide) (by decide)
  · exact archiveMutatorAbortKeepsOriginal.2.2 openFailOracle zdemo (gs "*.xml")
      (archiveFileRemoveRun openFailOracle zdemo (gs "*.xml")).1 MutErr.openReader
      (by decide) (by decide)

/-- Counterexample to claim C5: adding `/tmp/notes.txt` to an archive that
already holds a member `notes.txt` succeeds but leaves two members named
`notes.txt` — the removal of pre-existing members compares against the full
argument path, while the added member is named after its base name, so the
pre-existing member of the same name as the added member is not removed. -/
theorem archiveFileAdd_nameMismatch :
    (archiveFileAddRun allOkOracle ⟨[⟨gs "notes.txt", 8, 0, [1, 2, 3]⟩], []⟩
        (gs "/tmp/notes.txt") 0 [9] (fun l => l)).2 = none ∧
    goBase (gs "/tmp/notes.txt") = gs "notes.txt" ∧
    (archiveFileAddRun allOkOracle ⟨[⟨gs "notes.txt", 8, 0, [1, 2, 3]⟩], []⟩
        (gs "/tmp/notes.txt") 0 [9] (fun l => l)).1.members.countP
      (fun m => m.name == gs "notes.txt") = 2 := by decide

/-- Claim C5 as amended: a successful `archiveFileAdd` copies exactly the
members whose name differs from the argument path and appends one fresh
Deflate member named after the base name of that path; when the argument
path equals its own base name, the rewritten archive holds exactly one
member of that name — the fresh Deflate one. -/
theorem archiveFileAdd_amended :
    ∀ o z newFileName newMeta newData deflate res,
      archiveFileAddRun o z newFileName newMeta newData deflate = (res, none) →
      res.members = z.members.filter (fun m => decide (m.name ≠ newFileName)) ++
          [⟨goBase newFileName, deflateMethod, newMeta, deflate newData⟩] ∧
      (goBase newFileName = newFileName →
        res.members.filter (fun m => m.name == newFileName) =
          [⟨goBase newFileName, deflateMethod, newMeta, deflate newData⟩]) := by
  intro o z newFileName newMeta newData deflate res h
  have h1 := failCont_none _ _ _ _ h
  rcases stepCont_none _ _ _ _ h1 with ⟨copied, hcopy, h2⟩
  have h3 := failCont_none _ _ _ _ h2
  have h4 := (writeStep_inv _ _ _ _ h3).1
  have hc := addLoop_ok o.memberOk newFileName z.members 0 copied hcopy
  subst h4
  constructor
  · simp only [hc]
  · intro hbase
    simp only [hc, List.filter_append]
    have hnil : ∀ l : List ZipMember,
        (l.filter (fun m => decide (m.name ≠ newFileName))).filter
          (fun m => m.name == newFileName) = [] := by
      intro l
      induction l with
      | nil => rfl
      | cons m t ih =>
        by_cases hm : m.name = newFileName
        · simp [List.filter_cons, hm, ih]
        · simp [List.filter_cons, hm, ih]
    rw [hnil]
    simp [List.filter_cons, hbase]

/-- Witness for the amended C5 at a concrete archive and bare file name. -/
theorem archiveFileAdd_amended_witness :
    (archiveFileAddRun allOkOracle zdemo (gs "b.jpg") 7 [9] (fun l => l)).1.members =
      zdemo.members.filter (fun m => decide (m.name ≠ gs "b.jpg")) ++
        [⟨goBase (gs "b.jpg"), deflateMethod, 7, [9]⟩] := by
  exact (archiveFileAdd_amended allOkOracle zdemo (gs "b.jpg") 7 [9] (fun l => l)
    (archiveFileAddRun allOkOracle zdemo (gs "b.jpg") 7 [9] (fun l => l)).1 (by decide)).1

example : pad3 0 = gs "000" := by decide

example : pad3 7 = gs "007" := by decide

example : pad3 42 = gs "042" := by decide

example : pad3 1234 = gs "1234" := by decide

example : outputFileName (gs "jpeg") 0 (gs "a/page01.tif") = gs "page01.jpg" := by decide

example : outputFileName (gs "png") 12 [] = gs "012.png" := by decide

/-- Horner evaluation of the reversed digit list recovers the number. -/
theorem decAux_val : ∀ (f n : Nat), n ≤ f →
    List.foldl (fun a d => 10 * a + d) 0 (decAux f n).reverse = n := by
  intro f
  induction f with
  | zero =>
    intro n h
    interval_cases n
    rfl
  | succ f ih =>
    intro n h
    by_cases h0 : n = 0
    · subst h0; rfl
    · have hle : n / 10 ≤ f := by
        have := Nat.div_lt_self (Nat.pos_of_ne_zero h0) (by norm_num : 1 < 10)
        omega
      simp only [decAux, h0, if_false, List.reverse_cons, List.foldl_append,
        List.foldl_cons, List.foldl_nil, ih (n / 10) hle]
      omega

/-- Every produced decimal digit is below 10. -/
theorem decAux_lt : ∀ (f n d : Nat), d ∈ decAux f n → d < 10 := by
  intro f
  induction f with
  | zero => intro n d hd; simp [decAux] at hd
  | succ f ih =>
    intro n d hd
    by_cases h0 : n = 0
    · rw [h0] at hd; simp [decAux] at hd
    · simp only [decAux, h0, if_false, List.mem_cons] at hd
      rcases hd with h | h
      · rw [h]; exact Nat.mod_lt _ (by norm_num)
      · exact ih _ _ h

/-- Reading back the decimal string of `n` recovers `n`. -/
theorem chVal_decStr (n : Nat) : chVal (decStr n) = n := by
  have hlt : ∀ d ∈ decDigits n, d < 10 := by
    intro d hd
    exact decAux_lt n n d (List.mem_reverse.mp hd)
  have hchar : ∀ d, d < 10 → (digitChar d).toNat - 48 = d := by
    intro d hd
    interval_cases d <;> rfl
  have h1 : chVal (decStr n) = List.foldl (fun a d => 10 * a + d) 0 (decDigits n) := by
    rw [chVal, decStr, List.foldl_map]
    apply List.foldl_ext
    intro a d hd
    rw [hchar d (hlt d hd)]
  rw [h1, decDigits, decAux_val n n le_rfl]

/-- Leading zeros do not change the value read back. -/
theorem chVal_pad (k : Nat) (s : GoStr) :
    chVal (List.replicate k '0' ++ s) = chVal s := by
  induction k with
  | zero => rfl
  | succ k ih =>
    rw [List.replicate_succ, List.cons_append]
    exact ih

/-- `fmt.Sprintf("%03d", ·)` is injective. -/
theorem pad3_inj (m n : Nat) (h : pad3 m = pad3 n) : m = n := by
  have hm := congrArg chVal h
  rw [pad3, pad3, chVal_pad, chVal_pad, chVal_decStr, chVal_decStr] at hm
  exact hm

/-- Counterexample to claim C4: two distinct named entries with equal base
names but different directories and extensions receive the same output file
name, so distinct entries can collide in the scratch directory. -/
theorem outputFileName_collision :
    outputFileName (gs "png") 0 (gs "a/x.jpg") = outputFileName (gs "png") 1 (gs "b/x.tif") ∧
    gs "a/x.jpg" ≠ gs "b/x.tif" ∧ gs "a/x.jpg" ≠ [] ∧ gs "b/x.tif" ≠ [] := by decide

/-- Claim C4 as amended: entries are named as the claim states — named ones
as `<base-without-extension>.<ext>`, unnamed ones as the zero-padded 3-digit
index plus extension — and two unnamed entries never collide; two named
entries collide exactly when their base names without extension coincide,
so names are unique provided those base names are pairwise distinct. -/
theorem outputFileName_amended :
    ∀ format i j p q,
      (p ≠ [] → outputFileName format i p = baseNoExt p ++ '.' :: outExt format) ∧
      (outputFileName format i [] = pad3 i ++ '.' :: outExt format) ∧
      (outputFileName format i [] = outputFileName format j [] → i = j) ∧
      (p ≠ [] → q ≠ [] → outputFileName format i p = outputFileName format j q →
        baseNoExt p = baseNoExt q) := by
  intro format i j p q
  refine ⟨?_, ?_, ?_, ?_⟩
  · intro hp
    simp [outputFileName, hp]
  · simp [outputFileName]
  · intro h
    simp only [outputFileName, ne_eq, not_true_eq_false, if_false] at h
    exact pad3_inj i j (List.append_cancel_right h)
  · intro hp hq h
    simp only [outputFileName, hp, hq, ne_eq, not_false_eq_true, if_true] at h
    exact List.append_cancel_right h

/-- Witness for the amended C4: two named entries sharing a base name do
collide and are recognised as such; a named entry's output name is computed
by the stated formula. -/
theorem outputFileName_amended_witness :
    baseNoExt (gs "a/x.jpg") = baseNoExt (gs "b/x.jpg") ∧
    outputFileName (gs "png") 0 (gs "a/x.jpg") =
      baseNoExt (gs "a/x.jpg") ++ '.' :: outExt (gs "png") ∧
    0 = 0 := by
  refine ⟨?_, ?_, ?_⟩
  · exact (outputFileName_amended (gs "png") 0 1 (gs "a/x.jpg") (gs "b/x.jpg")).2.2.2
      (by decide) (by decide) (by decide)
  · exact (outputFileName_amended (gs "png") 0 1 (gs "a/x.jpg") (gs "b/x.jpg")).1
      (by decide)
  · exact (outputFileName_amended (gs "png") 0 0 (gs "a/x.jpg") (gs "b/x.jpg")).2.2.1
      (by decide)

/-- Counterexample to claim C6: a nested directory with two text files and
zero image files is still appended by the recursive walk — `walkDirs`
counts all non-directory children, not image files. -/
theorem walkDirs_countsAllFiles :
    filesDirArg 0 [WalkItem.dir twoTextDir] = [gs "d"] ∧
    imageChildCount twoTextDir = 0 := by decide

/-- Claim C6 as amended: when no individually matched archive/document file
was found, the recursive walk appends exactly those visited directories
whose immediate children include more than one non-directory entry of any
kind (not: more than one image file). -/
theorem walkDirsAppended_amended :
    ∀ thresholdMB items, walkFilesRun thresholdMB items = [] →
      filesDirArg thresholdMB items = walkDirsRun items ∧
      (∀ name, name ∈ walkDirsRun items ↔
        ∃ l, WalkItem.dir l ∈ items ∧ 1 < nonDirCount l ∧ l.name = name) := by
  intro thr items hm
  constructor
  · simp [filesDirArg, hm]
  · intro name
    rw [walkDirsRun, List.mem_flatten]
    constructor
    · rintro ⟨s, hs, hname⟩
      rcases List.mem_map.mp hs with ⟨item, hitem, rfl⟩
      cases item with
      | file n sz => simp [walkDirsStep] at hname
      | dir l =>
        simp only [walkDirsStep] at hname
        by_cases hc : 1 < nonDirCount l
        · rw [if_pos hc] at hname
          simp only [List.mem_singleton] at hname
          exact ⟨l, hitem, hc, hname.symm⟩
        · rw [if_neg hc] at hname
          simp at hname
    · rintro ⟨l, hl, hc, hname⟩
      refine ⟨walkDirsStep (WalkItem.dir l), List.mem_map.mpr ⟨_, hl, rfl⟩, ?_⟩
      simp [walkDirsStep, hc, hname]

/-- Witness for the amended C6 at the concrete two-text-file directory. -/
theorem walkDirsAppended_amended_witness :
    filesDirArg 0 [WalkItem.dir twoTextDir] = walkDirsRun [WalkItem.dir twoTextDir] :=
  (walkDirsAppended_amended 0 [WalkItem.dir twoTextDir] (by decide)).1

/-- Claim C7: during conversion of one input, the number of simultaneously
running entry-processing tasks never exceeds the logical CPU count plus
one, in every reachable state of the worker pool. -/
theorem schedulerBounded (numCPU : Nat) (s : SchedState)
    (h : SchedReach (convertWorkerLimit numCPU) s) : s.running ≤ numCPU + 1 := by
  induction h with
  | init => exact Nat.zero_le _
  | step s t hs hstep ih =>
    cases hstep with
    | dispatch hlt =>
      simp only [convertWorkerLimit] at hlt
      show s.running + 1 ≤ numCPU + 1
      omega
    | finish hpos =>
      show s.running - 1 ≤ numCPU + 1
      omega

/-- Witness for C7: the pool state after one dispatch on a 4-CPU machine. -/
theorem schedulerBounded_witness : SchedState.running ⟨1, 1⟩ ≤ 4 + 1 :=
  schedulerBounded 4 ⟨1, 1⟩
    (SchedReach.step ⟨0, 0⟩ ⟨1, 1⟩ SchedReach.init
      (SchedStep.dispatch ⟨0, 0⟩ (by norm_num [convertWorkerLimit])))

/-- Claim C8: the levels operation runs if and only if at least one of the
five parameters differs from its identity default; with all five at their
defaults the image handed to encoding is exactly the transform output and
the levels operation is never invoked. -/
theorem imageConvertLevels :
    ∀ (o : LevelsOptions),
      (levelsGate o = true ↔
        (o.levelsInMin ≠ 0 ∨ o.levelsInMax ≠ 255 ∨ o.levelsGamma ≠ 1 ∨
          o.levelsOutMin ≠ 0 ∨ o.levelsOutMax ≠ 255)) ∧
      (o = levelsDefaults → ∀ (α : Type) (transform : α → α)
        (level : α → Except Unit α) (img : α),
        imageConvertStage o transform level img = Except.ok (transform img)) := by
  intro o
  constructor
  · simp [levelsGate, Bool.or_eq_true, decide_eq_true_iff, or_assoc]
  · intro hdef α transform level img
    subst hdef
    have hg : levelsGate levelsDefaults = false := by decide
    simp [imageConvertStage, hg]

/-- Witness for C8: with default parameters the stage ignores even an
always-failing levels operation and returns the transform output. -/
theorem imageConvertLevels_witness :
    imageConvertStage levelsDefaults (fun n : Nat => n + 1)
      (fun _ => Except.error ()) 3 = Except.ok 4 :=
  (imageConvertLevels levelsDefaults).2 rfl Nat (fun n => n + 1)
    (fun _ => Except.error ()) 3

/-- Claim C10: when the computed target dimensions equal the source
dimensions — including the case where a dimension is 0 and the derived one
matches — `resize` returns an image with the source's pixel data and bounds
and never consults the resampling filter. -/
theorem resizeIdentity :
    ∀ (resample resample2 : GoImage → Nat → Nat → GoImage) (img : GoImage)
      (width height : Nat),
      img.width = resizeDstW img width height →
      img.height = resizeDstH img width height →
      resizeImage resample img width height = imageToRGBA img ∧
      (resizeImage resample img width height).pix = img.pix ∧
      (resizeImage resample img width height).width = img.width ∧
      (resizeImage resample img width height).height = img.height ∧
      resizeImage resample img width height = resizeImage resample2 img width height := by
  intro resample resample2 img width height hW hH
  have h : resizeImage resample img width height = imageToRGBA img := by
    rw [resizeImage, if_pos ⟨hW, hH⟩]
  have h2 : resizeImage resample2 img width height = imageToRGBA img := by
    rw [resizeImage, if_pos ⟨hW, hH⟩]
  exact ⟨h, by rw [h]; rfl, by rw [h]; rfl, by rw [h]; rfl, by rw [h, h2]⟩

/-- Witness for C10: requesting the source dimensions 4 by 3 on the 4-by-3
image makes the resize an identity copy for any two resampling
collaborators. -/
theorem resizeIdentity_witness :
    resizeImage (fun i _ _ => i) imgDemo 4 3 = imageToRGBA imgDemo ∧
    (resizeImage (fun i _ _ => i) imgDemo 4 3).pix = imgDemo.pix ∧
    (resizeImage (fun i _ _ => i) imgDemo 4 3).width = imgDemo.width ∧
    (resizeImage (fun i _ _ => i) imgDemo 4 3).height = imgDemo.height ∧
    resizeImage (fun i _ _ => i) imgDemo 4 3 =
      resizeImage (fun _ _ _ => GoImage.mk 0 0 (fun _ _ => 0)) imgDemo 4 3 :=
  resizeIdentity (fun i _ _ => i) (fun _ _ _ => GoImage.mk 0 0 (fun _ _ => 0))
    imgDemo 4 3 (by decide) (by decide)

